import Mathlib

/-!
Shallow embedding of the data-aggregation layer of the shipment-analytics
repository: the SQL-driven transformations of `lib/data/shipments.ts`
(DuckDB queries over the in-memory `shipments` table) and the API-layer
pagination-parameter handling (`parsePositiveInt` and the endpoint handlers).

The `shipments` table is modelled as a `List Shipment`.  SQL aggregation is
modelled directly: `GROUP BY k` is "list of distinct keys, each paired with
the filter of the rows having that key", `UNION ALL` is list append, `UNION`
is append followed by `dedup`, `ORDER BY` is a stable sort by the order key,
and `LIMIT l OFFSET o` is `drop o` followed by `take l`.  Weights
(`weight_metric_tonnes`, a JSON number read by DuckDB as DOUBLE) are modelled
as exact rationals; `CAST (x AS INTEGER)` on a numeric value is DuckDB's
rounding cast, modelled by `castInt`.
-/

/-- Calendar date, as DuckDB obtains it from `CAST (shipment_date AS DATE)`. -/
structure ShipDate where
  year : Nat
  month : Nat
  day : Nat
  deriving DecidableEq, Repr

/-- DATE comparison: chronological (year, then month, then day). -/
def dateLeB (a b : ShipDate) : Bool :=
  if a.year < b.year then true
  else if a.year = b.year then
    if a.month < b.month then true
    else if a.month = b.month then a.day ≤ b.day
    else false
  else false

/-- One row of the `shipments` table (fields the queries touch). -/
structure Shipment where
  importer_name : String
  importer_country : String
  importer_website : Option String
  exporter_name : String
  exporter_country : String
  exporter_website : Option String
  commodity_name : String
  weight_metric_tonnes : Rat
  shipment_date : ShipDate
  deriving DecidableEq, Repr

/-- DuckDB `CAST (x AS INTEGER)` on a DOUBLE rounds to the nearest integer
(half away from zero); on an exact integer it is the identity. -/
def castInt (q : Rat) : Int :=
  if 0 ≤ q then ⌊q + (1 : Rat) / 2⌋ else -⌊(1 : Rat) / 2 - q⌋

/-- Value of `SUM (weight_metric_tonnes * 1000)` over a set of rows. -/
def kgSum (rows : List Shipment) : Rat :=
  (rows.map (fun s => s.weight_metric_tonnes * 1000)).sum

/-- The (importer_name, importer_country) pair of a row. -/
def impKey (s : Shipment) : String × String :=
  (s.importer_name, s.importer_country)

/-- The (exporter_name, exporter_country) pair of a row. -/
def expKey (s : Shipment) : String × String :=
  (s.exporter_name, s.exporter_country)

/-- One row of the `importers` / `exporters` CTE of the company queries. -/
structure RoleAgg where
  name : String
  country : String
  shipments : Nat
  weight : Int
  deriving DecidableEq, Repr

/-- The (name, country) pair of a CTE row. -/
def raKey (r : RoleAgg) : String × String :=
  (r.name, r.country)

/-- The CTE row produced for group key `k`: `COUNT (*)` and
`CAST (SUM (weight_metric_tonnes * 1000) AS INTEGER)`. -/
def mkRoleAgg (db : List Shipment) (key : Shipment → String × String)
    (k : String × String) : RoleAgg :=
  ⟨k.1, k.2, (db.filter (fun s => key s = k)).length,
    castInt (kgSum (db.filter (fun s => key s = k)))⟩

/-- The `importers` / `exporters` CTE: group the table by the role's
(name, country) pair, count rows and sum scaled weights per group. -/
def roleCTE (db : List Shipment) (key : Shipment → String × String) :
    List RoleAgg :=
  ((db.map key).dedup).map (mkRoleAgg db key)

/-- The `importers` CTE of `transformShipmentsToCompanies` / `getCompanies`. -/
def importersCTE (db : List Shipment) : List RoleAgg :=
  roleCTE db impKey

/-- The `exporters` CTE of `transformShipmentsToCompanies` / `getCompanies`. -/
def exportersCTE (db : List Shipment) : List RoleAgg :=
  roleCTE db expKey

/-- Element of the company list returned by the aggregation queries. -/
structure CompanyListItem where
  name : String
  country : String
  totalShipments : Nat
  totalWeight : Int
  deriving DecidableEq, Repr

/-- The (name, country) pair of a company list item. -/
def cliKey (i : CompanyListItem) : String × String :=
  (i.name, i.country)

/-- The outer `SELECT ... FROM (importers UNION ALL exporters) combined
GROUP BY name, country` of the company queries, before `ORDER BY`. -/
def companiesGrouped (db : List Shipment) : List CompanyListItem :=
  (((importersCTE db ++ exportersCTE db).map raKey).dedup).map (fun k =>
    ⟨k.1, k.2,
      (((importersCTE db ++ exportersCTE db).filter
          (fun r => raKey r = k)).map RoleAgg.shipments).sum,
      (((importersCTE db ++ exportersCTE db).filter
          (fun r => raKey r = k)).map RoleAgg.weight).sum⟩)

/-- The full company query: CTE + UNION ALL + GROUP BY, then
`ORDER BY totalShipments DESC` (ties in unspecified order; modelled with a
stable sort). -/
def companiesByActivity (db : List Shipment) : List CompanyListItem :=
  List.insertionSort (fun a b => b.totalShipments ≤ a.totalShipments)
    (companiesGrouped db)

/-- `transformShipmentsToCompanies`: the unpaginated company aggregation. -/
def transformShipmentsToCompanies (db : List Shipment) : List CompanyListItem :=
  companiesByActivity db

/-- The count query of `getCompanies`:
`COUNT (*)` over `SELECT DISTINCT name, country FROM (importers UNION exporters)`
(the UNION already removes duplicates; DISTINCT is a no-op on its result). -/
def companiesTotal (db : List Shipment) : Nat :=
  ((db.map impKey ++ db.map expKey).dedup).length

/-- Result shape of `getCompanies`. -/
structure CompaniesResult where
  data : List CompanyListItem
  total : Nat
  deriving DecidableEq, Repr

/-- `getCompanies`: total count of distinct companies plus the page
`LIMIT limit OFFSET offset` of the sorted company aggregation.  The paginated
query is textually the company query of `transformShipmentsToCompanies` with
`LIMIT`/`OFFSET` appended. -/
def getCompanies (db : List Shipment) (limit offset : Nat) : CompaniesResult :=
  ⟨((companiesByActivity db).drop offset).take limit, companiesTotal db⟩

/-- Result shape of `loadShipments`. -/
structure ShipmentsResult where
  data : List Shipment
  total : Nat
  deriving DecidableEq, Repr

/-- `loadShipments`: total row count plus the page
`ORDER BY shipment_date DESC LIMIT limit OFFSET offset`. -/
def loadShipments (db : List Shipment) (limit offset : Nat) : ShipmentsResult :=
  ⟨((List.insertionSort
        (fun a b => dateLeB b.shipment_date a.shipment_date = true) db).drop
      offset).take limit,
    db.length⟩

/-- `MAX_LIMIT` of `lib/utils/api`. -/
def MAX_LIMIT : Int := 1000

/-- `DEFAULT_LIMIT` of `lib/utils/api`. -/
def DEFAULT_LIMIT : Int := 100

/-- JS whitespace skipped by `parseInt` (the common ASCII cases). -/
def jsWhitespace (c : Char) : Bool :=
  c = ' ' || c = '\t' || c = '\n' || c = '\r'

/-- Numeric value of a list of decimal digit characters. -/
def digitsVal (ds : List Char) : Nat :=
  ds.foldl (fun a c => 10 * a + (c.toNat - 48)) 0

/-- JS `parseInt (value, 10)` on a query parameter: `none` models a missing
parameter (which stringifies to `"undefined"` and parses to NaN) and a NaN
result.  Leading whitespace is skipped, an optional sign is read, then the
longest prefix of decimal digits; no digits means NaN.  Trailing characters
are ignored.  (JS number precision beyond 2^53 is not modelled; no claim
depends on it.) -/
def jsParseInt10 (v : Option String) : Option Int :=
  match v with
  | none => none
  | some s =>
    let cs := s.data.dropWhile jsWhitespace
    let signed : Bool × List Char :=
      match cs with
      | c :: rest =>
        if c = '-' then (true, rest)
        else if c = '+' then (false, rest) else (false, cs)
      | [] => (false, [])
    let ds := signed.2.takeWhile (fun c => c.isDigit)
    if ds.isEmpty then none
    else if signed.1 then some (-(digitsVal ds : Int)) else some (digitsVal ds)

/-- `parsePositiveInt (value, defaultValue, max?)` of `lib/utils/api` (also
inlined in an endpoint variant): parse, fall back to the default on NaN or a
negative value, clamp to `max?` when given. -/
def parsePositiveInt (value : Option String) (defaultValue : Int)
    (maxVal : Option Int) : Int :=
  match jsParseInt10 value with
  | none => defaultValue
  | some parsed =>
    if parsed < 0 then defaultValue
    else
      match maxVal with
      | some m => if m < parsed then m else parsed
      | none => parsed

/-- The handler of `GET /api/shipments`: parse/clamp `limit` and `offset`
from the query string, then call the data layer with the effective values. -/
def shipmentsHandler (db : List Shipment) (qlimit qoffset : Option String) :
    ShipmentsResult :=
  loadShipments db (parsePositiveInt qlimit DEFAULT_LIMIT (some MAX_LIMIT)).toNat
    (parsePositiveInt qoffset 0 none).toNat

/-- Options object passed by the `GET /api/companies` handler variant that
forwards the `search` query parameter to the data layer. -/
structure CompaniesOptions where
  limit : Nat
  offset : Nat
  search : Option String
  deriving DecidableEq, Repr

/-- `getCompanies` as invoked with an options object: the function
destructures only `limit` and `offset`; `search` is not read. -/
def getCompaniesOpts (db : List Shipment) (options : CompaniesOptions) :
    CompaniesResult :=
  getCompanies db options.limit options.offset

/-- The handler of `GET /api/companies`: parse/clamp `limit` and `offset`,
extract `search` when it is a string, and call the data layer. -/
def companiesHandler (db : List Shipment)
    (qlimit qoffset qsearch : Option String) : CompaniesResult :=
  getCompaniesOpts db
    ⟨(parsePositiveInt qlimit DEFAULT_LIMIT (some MAX_LIMIT)).toNat,
      (parsePositiveInt qoffset 0 none).toNat, qsearch⟩

/-- The single-quote character, written by code point to keep the source
free of quote literals. -/
def squote : Char := Char.ofNat 39

/-- `companyName.replace (/single-quote/g, two-single-quotes)`: the escaping
`getCompanyDetail` applies before embedding the name in its queries.  Every
quote is doubled; every other character is left as is. -/
def escapeQuotes : List Char → List Char
  | [] => []
  | c :: cs =>
    if c = squote then squote :: squote :: escapeQuotes cs
    else c :: escapeQuotes cs

/-- Meaning of a character sequence standing between the enclosing quotes of
a SQL single-quoted literal: a doubled quote denotes one quote, any other
character denotes itself, and a lone quote means the literal ends early, so
the sequence is not a well-formed literal body (`none`). -/
def sqlQuotedBody : List Char → Option (List Char)
  | [] => some []
  | c :: cs =>
    if c = squote then
      match cs with
      | d :: ds =>
        if d = squote then (sqlQuotedBody ds).map (fun r => squote :: r)
        else none
      | [] => none
    else (sqlQuotedBody cs).map (fun r => c :: r)

/-- The (country, website) group key of the importer branch of
`getCompanyDetail`'s stats query. -/
def impSiteKey (s : Shipment) : String × Option String :=
  (s.importer_country, s.importer_website)

/-- The (country, website) group key of the exporter branch of
`getCompanyDetail`'s stats query. -/
def expSiteKey (s : Shipment) : String × Option String :=
  (s.exporter_country, s.exporter_website)

/-- One row of `getCompanyDetail`'s stats query. -/
structure DetailStatRow where
  role : String
  country : String
  website : Option String
  shipments : Nat
  weight : Int
  deriving DecidableEq, Repr

/-- One branch of the stats query: the rows of one role, filtered to the
company name, grouped by (country, website), with `COUNT (*)` and
`CAST (SUM (weight_metric_tonnes * 1000) AS INTEGER)`. -/
def detailRoleRows (rows : List Shipment) (roleLabel : String)
    (key : Shipment → String × Option String) : List DetailStatRow :=
  ((rows.map key).dedup).map (fun k =>
    ⟨roleLabel, k.1, k.2, (rows.filter (fun s => key s = k)).length,
      castInt (kgSum (rows.filter (fun s => key s = k)))⟩)

/-- The stats query of `getCompanyDetail`: importer branch UNION ALL
exporter branch, each filtered by the (escaped) company name. -/
def companyStatsRows (db : List Shipment) (name : String) :
    List DetailStatRow :=
  detailRoleRows (db.filter (fun s => s.importer_name = name)) "importer"
      impSiteKey
    ++ detailRoleRows (db.filter (fun s => s.exporter_name = name)) "exporter"
      expSiteKey

/-- Trading partner entry of a company detail. -/
structure TradingPartner where
  name : String
  country : String
  shipments : Nat
  deriving DecidableEq, Repr

/-- One branch of the partners query: counterparties of the given rows,
grouped by (name, country) with their shipment counts. -/
def partnerGroup (rows : List Shipment) (key : Shipment → String × String) :
    List TradingPartner :=
  ((rows.map key).dedup).map (fun k =>
    ⟨k.1, k.2, (rows.filter (fun s => key s = k)).length⟩)

/-- The partners query of `getCompanyDetail`: exporter counterparties of the
rows where the company imports, UNION ALL importer counterparties of the rows
where it exports, regrouped by (name, country) summing counts, ordered by
count descending, limited to 5. -/
def topPartnersQuery (db : List Shipment) (name : String) :
    List TradingPartner :=
  (List.insertionSort (fun a b => b.shipments ≤ a.shipments)
      ((((partnerGroup (db.filter (fun s => s.importer_name = name)) expKey
            ++ partnerGroup (db.filter (fun s => s.exporter_name = name))
              impKey).map
          (fun p => (p.name, p.country))).dedup).map (fun k =>
        ⟨k.1, k.2,
          (((partnerGroup (db.filter (fun s => s.importer_name = name)) expKey
                ++ partnerGroup (db.filter (fun s => s.exporter_name = name))
                  impKey).filter
              (fun p => (p.name, p.country) = k)).map
            TradingPartner.shipments).sum⟩))).take 5

/-- Commodity entry of a company detail. -/
structure Commodity where
  name : String
  kg : Int
  deriving DecidableEq, Repr

/-- The commodities query of `getCompanyDetail`: rows where the company is
importer or exporter, grouped by commodity, scaled weight sums cast to
integer, ordered by kg descending, limited to 5. -/
def topCommoditiesQuery (db : List Shipment) (name : String) :
    List Commodity :=
  (List.insertionSort (fun a b => b.kg ≤ a.kg)
      ((((db.filter (fun s =>
              s.importer_name = name || s.exporter_name = name)).map
          Shipment.commodity_name).dedup).map (fun c =>
        ⟨c,
          castInt (kgSum ((db.filter (fun s =>
              s.importer_name = name || s.exporter_name = name)).filter
            (fun s => s.commodity_name = c)))⟩))).take 5

/-- Result shape of `getCompanyDetail`. -/
structure CompanyDetail where
  name : String
  country : String
  website : Option String
  role : String
  totalShipments : Nat
  totalWeight : Int
  topTradingPartners : List TradingPartner
  topCommodities : List Commodity
  deriving DecidableEq, Repr

/-- JS truthiness of a website value: `null`/`undefined` and the empty
string are falsy. -/
def truthyStr : Option String → Bool
  | none => false
  | some w => w ≠ ""

/-- `getCompanyDetail (companyName)`: `null` when the stats query returns no
row; otherwise the role derived from the rows present, the totals summed over
all stats rows, the country of the first row, the first truthy website, and
the partner/commodity top-5 lists.  The `name` field is the verbatim input
(the quote-escaped form is only embedded in the queries; see
`escapeQuotes`/`sqlQuotedBody` for the proof that the escaped literal denotes
the verbatim name). -/
def getCompanyDetail (db : List Shipment) (companyName : String) :
    Option CompanyDetail :=
  match companyStatsRows db companyName with
  | [] => none
  | first :: _ =>
    some
      { name := companyName
        country := first.country
        website :=
          ((companyStatsRows db companyName).find?
              (fun s => truthyStr s.website)).bind DetailStatRow.website
        role :=
          if (companyStatsRows db companyName).any
                (fun s => s.role = "importer")
              && (companyStatsRows db companyName).any
                (fun s => s.role = "exporter") then
            "both"
          else if (companyStatsRows db companyName).any
                (fun s => s.role = "importer") then
            "importer"
          else "exporter"
        totalShipments :=
          ((companyStatsRows db companyName).map DetailStatRow.shipments).sum
        totalWeight :=
          ((companyStatsRows db companyName).map DetailStatRow.weight).sum
        topTradingPartners := topPartnersQuery db companyName
        topCommodities := topCommoditiesQuery db companyName }

/-- Decimal digit character for a value below ten. -/
def digCh (n : Nat) : Char := Char.ofNat (48 + n)

/-- Decimal digit characters of `n`, most significant first, via structural
recursion on a fuel that always suffices. -/
def natDigitsFuel : Nat → Nat → List Char
  | 0, _ => []
  | fuel + 1, n =>
    if n < 10 then [digCh n]
    else natDigitsFuel fuel (n / 10) ++ [digCh (n % 10)]

/-- Decimal digit characters of `n`, most significant first. -/
def natToDigits (n : Nat) : List Char := natDigitsFuel (n + 1) n

/-- Left-pad a character list with zeros to width `w` (as strftime's
zero-padded numeric fields do). -/
def padZeros (w : Nat) (ds : List Char) : List Char :=
  List.replicate (w - ds.length) '0' ++ ds

/-- strftime `%Y`: the year, zero-padded to (at least) four digits. -/
def pad4 (n : Nat) : List Char := padZeros 4 (natToDigits n)

/-- strftime `%m`: the month, zero-padded to (at least) two digits. -/
def pad2 (n : Nat) : List Char := padZeros 2 (natToDigits n)

/-- strftime `%b`: abbreviated month name (months outside 1..12 cannot come
out of a DATE value; the catch-all branch is outside the model's domain). -/
def monAbbrev : Nat → List Char
  | 1 => ['J', 'a', 'n']
  | 2 => ['F', 'e', 'b']
  | 3 => ['M', 'a', 'r']
  | 4 => ['A', 'p', 'r']
  | 5 => ['M', 'a', 'y']
  | 6 => ['J', 'u', 'n']
  | 7 => ['J', 'u', 'l']
  | 8 => ['A', 'u', 'g']
  | 9 => ['S', 'e', 'p']
  | 10 => ['O', 'c', 't']
  | 11 => ['N', 'o', 'v']
  | 12 => ['D', 'e', 'c']
  | _ => []

/-- strftime `(date, %Y-%m)`: the year-month group key of the monthly-volume
query. -/
def ymChars (d : ShipDate) : List Char := pad4 d.year ++ '-' :: pad2 d.month

/-- strftime `(date, %b %Y)`: the month label of a monthly-volume entry. -/
def monLabelChars (d : ShipDate) : List Char :=
  monAbbrev d.month ++ ' ' :: pad4 d.year

/-- Bytewise comparison of VARCHAR values, as DuckDB's default collation
orders them (ASCII here, so code points coincide with bytes). -/
def charListLe : List Char → List Char → Bool
  | [], _ => true
  | _ :: _, [] => false
  | c :: cs, d :: ds => if c = d then charListLe cs ds else c.toNat < d.toNat

/-- SQL `MIN (shipment_date)` over a list of rows (the empty case cannot
arise for a GROUP BY group). -/
def minDateOf (rows : List Shipment) : ShipDate :=
  match rows with
  | [] => ⟨0, 0, 0⟩
  | s :: rest =>
    rest.foldl
      (fun acc t =>
        if dateLeB t.shipment_date acc then t.shipment_date else acc)
      s.shipment_date

/-- Entry of the monthly-volume series. -/
structure MonthlyVolumeItem where
  month : String
  kg : Int
  deriving DecidableEq, Repr

/-- The monthly-volume query of `getCompanyStats`: group rows by the
`%Y-%m` rendering of their date, per group take
`strftime (MIN (shipment_date), %b %Y)` and the integer-cast scaled weight
sum, and order by the `%Y-%m` rendering of the group's `MIN` date. -/
def monthlyVolume (db : List Shipment) : List MonthlyVolumeItem :=
  (List.insertionSort
      (fun a b => charListLe (ymChars a.1) (ymChars b.1) = true)
      ((((db.map (fun s => ymChars s.shipment_date)).dedup).map (fun k =>
          db.filter (fun s => ymChars s.shipment_date = k))).map (fun g =>
        (minDateOf g, castInt (kgSum g))))).map (fun r =>
    ⟨String.mk (monLabelChars r.1), r.2⟩)

/-- Entry of the dashboard top-commodities list. -/
structure TopCommodity where
  commodity : String
  kg : Int
  deriving DecidableEq, Repr

/-- The top-commodities query of `getCompanyStats`: group all rows by
commodity, integer-cast the scaled weight sum per group, order by kg
descending, limit 5. -/
def statsTopCommodities (db : List Shipment) : List TopCommodity :=
  (List.insertionSort (fun a b => b.kg ≤ a.kg)
      (((db.map Shipment.commodity_name).dedup).map (fun c =>
        ⟨c, castInt (kgSum (db.filter (fun s => s.commodity_name = c)))⟩))).take
    5

/-- Result shape of `getCompanyStats`. -/
structure StatsResponse where
  totalImporters : Nat
  totalExporters : Nat
  topCommodities : List TopCommodity
  monthlyVolume : List MonthlyVolumeItem
  deriving DecidableEq, Repr

/-- `getCompanyStats`: `COUNT (DISTINCT importer_name)`,
`COUNT (DISTINCT exporter_name)`, the top-5 commodities and the monthly
volume series. -/
def getCompanyStats (db : List Shipment) : StatsResponse :=
  ⟨((db.map Shipment.importer_name).dedup).length,
    ((db.map Shipment.exporter_name).dedup).length,
    statsTopCommodities db, monthlyVolume db⟩

/-- Valid DATE components as far as the monthly-volume claims need them: a
real month number and a four-digit year (every year of the dataset's era;
`%Y` renders years above 9999 with five or more digits, for which the
lexicographic ordering of the query would not be chronological). -/
def validYM (d : ShipDate) : Prop :=
  1 ≤ d.month ∧ d.month ≤ 12 ∧ d.year ≤ 9999

instance (d : ShipDate) : Decidable (validYM d) := by
  unfold validYM
  infer_instance

/-- Chronological order on (year, month) pairs. -/
def ymPairLe (p q : Nat × Nat) : Prop :=
  p.1 < q.1 ∨ (p.1 = q.1 ∧ p.2 ≤ q.2)

/-- Concrete dataset for the C3 counterexample: two shipments of 0.0004
tonnes each, same importer and same exporter. -/
def exDbC3 : List Shipment :=
  [⟨"A", "X", none, "B", "Y", none, "zinc", 4 / 10000, ⟨2024, 1, 5⟩⟩,
    ⟨"A", "X", none, "B", "Y", none, "zinc", 4 / 10000, ⟨2024, 1, 9⟩⟩]

/-- Concrete dataset for the C10 witness: the same importer name in two
different countries. -/
def exDbC10 : List Shipment :=
  [⟨"A", "X", none, "B", "Y", none, "steel", 2, ⟨2024, 1, 5⟩⟩,
    ⟨"A", "Y", none, "C", "Z", none, "coal", 3, ⟨2024, 2, 6⟩⟩]

/-- A company name containing a single quote, for the C2 witness. -/
def quotedName : String := String.mk ['O', Char.ofNat 39, 'B']

/-- Concrete two-row dataset used by witnesses: company ("A", "X") imports
one shipment and exports another. -/
def exDbC1 : List Shipment :=
  [⟨"A", "X", none, "B", "Y", none, "steel", 2, ⟨2024, 1, 5⟩⟩,
    ⟨"C", "Z", none, "A", "X", none, "coal", 3, ⟨2024, 2, 6⟩⟩]

theorem castInt_zero : castInt 0 = 0 := by
  norm_num [castInt]

theorem nodup_filter_eq_key {α : Type _} [DecidableEq α] (k : α) (l : List α)
    (hl : l.Nodup) :
    l.filter (fun x => x = k) = if k ∈ l then [k] else [] := by
  induction l with
  | nil => simp
  | cons a t ih =>
    have ha : a ∉ t := (List.nodup_cons.mp hl).1
    have ih2 := ih (List.nodup_cons.mp hl).2
    by_cases hak : a = k
    · subst hak
      simp [List.filter_cons, ih2, ha]
    · simp [List.filter_cons, hak, ih2, Ne.symm hak]

theorem roleCTE_map_raKey (db : List Shipment)
    (key : Shipment → String × String) :
    (roleCTE db key).map raKey = (db.map key).dedup := by
  unfold roleCTE
  rw [List.map_map]
  have h : raKey ∘ mkRoleAgg db key = id := by
    funext k
    simp [raKey, mkRoleAgg]
  rw [h, List.map_id]

theorem roleCTE_filter (db : List Shipment) (key : Shipment → String × String)
    (k : String × String) :
    (roleCTE db key).filter (fun r => raKey r = k) =
      if k ∈ (db.map key).dedup then [mkRoleAgg db key k] else [] := by
  unfold roleCTE
  rw [List.filter_map]
  have h1 : ((db.map key).dedup.filter
        ((fun r => decide (raKey r = k)) ∘ mkRoleAgg db key)) =
      (db.map key).dedup.filter (fun x => x = k) := by
    apply List.filter_congr
    intro x hx
    simp [raKey, mkRoleAgg]
  rw [h1, nodup_filter_eq_key k _ (List.nodup_dedup _)]
  by_cases h : k ∈ (db.map key).dedup <;> simp [h]

theorem filter_empty_of_key_not_mem (db : List Shipment)
    (key : Shipment → String × String) (k : String × String)
    (h : k ∉ (db.map key).dedup) :
    db.filter (fun s => key s = k) = [] := by
  rw [List.filter_eq_nil_iff]
  intro s hs
  simp only [decide_eq_true_eq]
  intro hk
  exact h (List.mem_dedup.mpr (List.mem_map.mpr ⟨s, hs, hk⟩))

theorem role_shipments_sum (db : List Shipment)
    (key : Shipment → String × String) (k : String × String) :
    (((roleCTE db key).filter (fun r => raKey r = k)).map
        RoleAgg.shipments).sum =
      (db.filter (fun s => key s = k)).length := by
  rw [roleCTE_filter]
  by_cases h : k ∈ (db.map key).dedup
  · simp [h, mkRoleAgg]
  · simp [h, filter_empty_of_key_not_mem db key k h]

theorem role_weight_sum (db : List Shipment)
    (key : Shipment → String × String) (k : String × String) :
    (((roleCTE db key).filter (fun r => raKey r = k)).map RoleAgg.weight).sum =
      castInt (kgSum (db.filter (fun s => key s = k))) := by
  rw [roleCTE_filter]
  by_cases h : k ∈ (db.map key).dedup
  · simp [h, mkRoleAgg]
  · simp [h, filter_empty_of_key_not_mem db key k h, kgSum, castInt_zero]

theorem companiesGrouped_map_key (db : List Shipment) :
    (companiesGrouped db).map cliKey =
      ((importersCTE db ++ exportersCTE db).map raKey).dedup := by
  unfold companiesGrouped
  rw [List.map_map]
  have h :
      (cliKey ∘ fun k : String × String =>
          (⟨k.1, k.2,
            (((importersCTE db ++ exportersCTE db).filter
                (fun r => raKey r = k)).map RoleAgg.shipments).sum,
            (((importersCTE db ++ exportersCTE db).filter
                (fun r => raKey r = k)).map RoleAgg.weight).sum⟩ :
            CompanyListItem)) =
        id := by
    funext k
    simp [cliKey]
  rw [h, List.map_id]

theorem mem_companiesGrouped_totals (db : List Shipment)
    {item : CompanyListItem} (h : item ∈ companiesGrouped db) :
    item.totalShipments =
        (db.filter (fun s => impKey s = cliKey item)).length +
          (db.filter (fun s => expKey s = cliKey item)).length ∧
      item.totalWeight =
        castInt (kgSum (db.filter (fun s => impKey s = cliKey item))) +
          castInt (kgSum (db.filter (fun s => expKey s = cliKey item))) := by
  rcases List.mem_map.mp h with ⟨k, hk, rfl⟩
  have hkey :
      cliKey
          ⟨k.1, k.2,
            (((importersCTE db ++ exportersCTE db).filter
                (fun r => raKey r = k)).map RoleAgg.shipments).sum,
            (((importersCTE db ++ exportersCTE db).filter
                (fun r => raKey r = k)).map RoleAgg.weight).sum⟩ =
        k := by
    simp [cliKey]
  rw [hkey]
  constructor
  · show (((importersCTE db ++ exportersCTE db).filter
        (fun r => raKey r = k)).map RoleAgg.shipments).sum = _
    rw [List.filter_append, List.map_append, List.sum_append, importersCTE,
      exportersCTE, role_shipments_sum, role_shipments_sum]
  · show (((importersCTE db ++ exportersCTE db).filter
        (fun r => raKey r = k)).map RoleAgg.weight).sum = _
    rw [List.filter_append, List.map_append, List.sum_append, importersCTE,
      exportersCTE, role_weight_sum, role_weight_sum]

theorem companiesByActivity_nodup_key (db : List Shipment) :
    ((companiesByActivity db).map cliKey).Nodup := by
  have hperm :
      List.Perm ((companiesByActivity db).map cliKey)
        ((companiesGrouped db).map cliKey) :=
    (List.perm_insertionSort _ _).map cliKey
  rw [hperm.nodup_iff, companiesGrouped_map_key]
  exact List.nodup_dedup _

theorem page_sublist (db : List Shipment) (limit offset : Nat) :
    List.Sublist ((getCompanies db limit offset).data)
      (companiesByActivity db) :=
  (List.take_sublist _ _).trans (List.drop_sublist _ _)

/-- C1: in every company list produced by the aggregation layer — the full
`transformShipmentsToCompanies` output and every `getCompanies` page — each
(name, country) pair occurs at most once, and each listed company's
`totalShipments` is the number of shipments in which the pair is the importer
plus the number in which it is the exporter, while `totalWeight` is the
integer-cast importer-role weight sum plus the integer-cast exporter-role
weight sum for the pair. -/
theorem claim_C1_company_aggregation (db : List Shipment)
    (limit offset : Nat) :
    (((transformShipmentsToCompanies db).map cliKey).Nodup ∧
        (((getCompanies db limit offset).data).map cliKey).Nodup) ∧
      ∀ item : CompanyListItem,
        item ∈ transformShipmentsToCompanies db ∨
            item ∈ (getCompanies db limit offset).data →
          item.totalShipments =
              (db.filter (fun s => impKey s = cliKey item)).length +
                (db.filter (fun s => expKey s = cliKey item)).length ∧
            item.totalWeight =
              castInt (kgSum (db.filter (fun s => impKey s = cliKey item))) +
                castInt
                  (kgSum (db.filter (fun s => expKey s = cliKey item))) := by
  refine ⟨⟨companiesByActivity_nodup_key db, ?_⟩, ?_⟩
  · exact (companiesByActivity_nodup_key db).sublist
      ((page_sublist db limit offset).map cliKey)
  · intro item hmem
    have hground : item ∈ companiesGrouped db := by
      rcases hmem with hmem | hmem
      · exact (List.mem_insertionSort _).mp hmem
      · exact (List.mem_insertionSort _).mp
          ((page_sublist db limit offset).subset hmem)
    exact mem_companiesGrouped_totals db hground

/-- Witness for C1 at a concrete dataset: a company appearing as importer of
one shipment and exporter of another is listed once with summed totals. -/
theorem claim_C1_company_aggregation_witness :
    ∃ item : CompanyListItem,
      item ∈ transformShipmentsToCompanies exDbC1 ∧
        item.totalShipments =
            (exDbC1.filter (fun s => impKey s = cliKey item)).length +
              (exDbC1.filter (fun s => expKey s = cliKey item)).length := by
  have hk : ("A", "X") ∈
      ((importersCTE exDbC1 ++ exportersCTE exDbC1).map raKey).dedup := by
    decide
  have hmem0 :
      (⟨"A", "X",
        (((importersCTE exDbC1 ++ exportersCTE exDbC1).filter
            (fun r => raKey r = ("A", "X"))).map RoleAgg.shipments).sum,
        (((importersCTE exDbC1 ++ exportersCTE exDbC1).filter
            (fun r => raKey r = ("A", "X"))).map RoleAgg.weight).sum⟩ :
        CompanyListItem) ∈ companiesGrouped exDbC1 := by
    unfold companiesGrouped
    exact List.mem_map_of_mem _ hk
  have hmem :=
    (List.mem_insertionSort
      (fun a b : CompanyListItem =>
        b.totalShipments ≤ a.totalShipments)).mpr hmem0
  exact ⟨_, hmem,
    ((claim_C1_company_aggregation exDbC1 1 0).2 _ (Or.inl hmem)).1⟩

/-- C4: the `total` returned by `getCompanies` is the number of distinct
(name, country) pairs occurring in the dataset as importer or exporter — a
pair active in both roles is counted once — and does not depend on the
`limit` and `offset` arguments (they do not occur in the right-hand side). -/
theorem claim_C4_total_distinct_pairs (db : List Shipment)
    (limit offset : Nat) :
    (getCompanies db limit offset).total =
      ((db.map impKey).toFinset ∪ (db.map expKey).toFinset).card := by
  rw [← List.toFinset_append, List.card_toFinset]
  simp [getCompanies, companiesTotal]

/-- C6: every page returned by `getCompanies` is sorted by `totalShipments`
in descending order. -/
theorem claim_C6_pages_sorted (db : List Shipment) (limit offset : Nat) :
    ((getCompanies db limit offset).data).Pairwise
      (fun a b => b.totalShipments ≤ a.totalShipments) := by
  have hs : (companiesByActivity db).Pairwise
      (fun a b => b.totalShipments ≤ a.totalShipments) := by
    haveI :
        IsTotal CompanyListItem
          (fun a b => b.totalShipments ≤ a.totalShipments) :=
      ⟨fun a b => Nat.le_total b.totalShipments a.totalShipments⟩
    haveI :
        IsTrans CompanyListItem
          (fun a b => b.totalShipments ≤ a.totalShipments) :=
      ⟨fun _ _ _ h1 h2 => Nat.le_trans h2 h1⟩
    exact List.sorted_insertionSort _ _
  exact hs.sublist (page_sublist db limit offset)

/-- C9: the companies endpoint output does not depend on the `search` query
parameter — two handler calls differing only in `search` give identical data
and total — because `getCompanies` reads only the `limit` and `offset`
fields of its options. -/
theorem claim_C9_search_independent (db : List Shipment)
    (qlimit qoffset s₁ s₂ : Option String) :
    companiesHandler db qlimit qoffset s₁ =
        companiesHandler db qlimit qoffset s₂ ∧
      ∀ (limit offset : Nat) (search : Option String),
        getCompaniesOpts db ⟨limit, offset, search⟩ =
          getCompanies db limit offset :=
  ⟨rfl, fun _ _ _ => rfl⟩

theorem escapeQuotes_roundTrip (cs : List Char) :
    sqlQuotedBody (escapeQuotes cs) = some cs := by
  induction cs with
  | nil => rfl
  | cons c cs ih =>
    by_cases h : c = squote
    · subst h
      rw [escapeQuotes, if_pos rfl, sqlQuotedBody.eq_def]
      simp [ih]
    · rw [escapeQuotes, if_neg h, sqlQuotedBody.eq_def]
      simp [h, ih]

theorem escapeQuotes_id_of_no_quote (cs : List Char)
    (h : ∀ c ∈ cs, c ≠ squote) : escapeQuotes cs = cs := by
  induction cs with
  | nil => rfl
  | cons c cs ih =>
    have hc : c ≠ squote := h c (List.mem_cons_self c cs)
    simp [escapeQuotes, hc, ih (fun d hd => h d (List.mem_cons_of_mem c hd))]

theorem detailRoleRows_eq_nil_iff (rows : List Shipment) (roleLabel : String)
    (key : Shipment → String × Option String) :
    detailRoleRows rows roleLabel key = [] ↔ rows = [] := by
  unfold detailRoleRows
  simp [List.map_eq_nil_iff, List.dedup_eq_nil]

theorem companyStatsRows_eq_nil_iff (db : List Shipment) (name : String) :
    companyStatsRows db name = [] ↔
      ∀ s ∈ db, s.importer_name ≠ name ∧ s.exporter_name ≠ name := by
  unfold companyStatsRows
  rw [List.append_eq_nil, detailRoleRows_eq_nil_iff, detailRoleRows_eq_nil_iff,
    List.filter_eq_nil_iff, List.filter_eq_nil_iff]
  constructor
  · intro ⟨h1, h2⟩ s hs
    exact ⟨by simpa using h1 s hs, by simpa using h2 s hs⟩
  · intro h
    exact ⟨fun s hs => by simpa using (h s hs).1,
      fun s hs => by simpa using (h s hs).2⟩

theorem getCompanyDetail_none_iff (db : List Shipment) (name : String) :
    getCompanyDetail db name = none ↔ companyStatsRows db name = [] := by
  unfold getCompanyDetail
  rcases companyStatsRows db name with _ | ⟨f, r⟩ <;> simp

/-- C2: `getCompanyDetail` returns `null` exactly when the byte-exact name
matches no importer and no exporter row; the quote-escaped form embedded in
the query denotes exactly the original name for every input string (so quote
characters and other SQL metacharacters cannot change which rows are
compared), and the escaping rewrites nothing but quote characters. -/
theorem claim_C2_detail_null_iff (db : List Shipment) (name : String) :
    (getCompanyDetail db name = none ↔
        ∀ s ∈ db, s.importer_name ≠ name ∧ s.exporter_name ≠ name) ∧
      sqlQuotedBody (escapeQuotes name.data) = some name.data ∧
      ((∀ c ∈ name.data, c ≠ squote) → escapeQuotes name.data = name.data) :=
  ⟨(getCompanyDetail_none_iff db name).trans
      (companyStatsRows_eq_nil_iff db name),
    escapeQuotes_roundTrip name.data,
    escapeQuotes_id_of_no_quote name.data⟩

/-- Witness for C2: a name containing a single quote matches nothing in the
example dataset and round-trips through the escaping, and a quote-free name
is left unchanged by the escaping. -/
theorem claim_C2_detail_null_iff_witness :
    getCompanyDetail exDbC1 quotedName = none ∧
      sqlQuotedBody (escapeQuotes quotedName.data) = some quotedName.data ∧
      escapeQuotes "A".data = "A".data :=
  ⟨(claim_C2_detail_null_iff exDbC1 quotedName).1.mpr (by decide),
    (claim_C2_detail_null_iff exDbC1 quotedName).2.1,
    (claim_C2_detail_null_iff exDbC1 "A").2.2 (by decide)⟩

theorem sum_group_lengths {α κ : Type _} [DecidableEq κ] (rows : List α)
    (key : α → κ) :
    (((rows.map key).dedup).map
        (fun k => (rows.filter (fun x => key x = k)).length)).sum =
      rows.length := by
  have h1 := List.sum_map_count_dedup_eq_length (rows.map key)
  rw [List.length_map] at h1
  rw [← h1]
  apply congrArg
  apply List.map_congr_left
  intro k _
  rw [List.count_eq_countP, List.countP_map, List.countP_eq_length_filter]
  rfl

theorem detailRoleRows_shipments_sum (rows : List Shipment)
    (roleLabel : String) (key : Shipment → String × Option String) :
    ((detailRoleRows rows roleLabel key).map DetailStatRow.shipments).sum =
      rows.length := by
  unfold detailRoleRows
  rw [List.map_map]
  exact sum_group_lengths rows key

theorem companyStatsRows_shipments_sum (db : List Shipment) (name : String) :
    ((companyStatsRows db name).map DetailStatRow.shipments).sum =
      (db.filter (fun s => s.importer_name = name)).length +
        (db.filter (fun s => s.exporter_name = name)).length := by
  unfold companyStatsRows
  rw [List.map_append, List.sum_append, detailRoleRows_shipments_sum,
    detailRoleRows_shipments_sum]

theorem companyStatsRows_weight_sum (db : List Shipment) (name : String) :
    ((companyStatsRows db name).map DetailStatRow.weight).sum =
      ((((db.filter (fun s => s.importer_name = name)).map impSiteKey).dedup).map
          (fun k =>
            castInt
              (kgSum ((db.filter (fun s => s.importer_name = name)).filter
                (fun s => impSiteKey s = k))))).sum +
        ((((db.filter (fun s => s.exporter_name = name)).map
              expSiteKey).dedup).map
          (fun k =>
            castInt
              (kgSum ((db.filter (fun s => s.exporter_name = name)).filter
                (fun s => expSiteKey s = k))))).sum := by
  unfold companyStatsRows detailRoleRows
  rw [List.map_append, List.sum_append, List.map_map, List.map_map]
  rfl

theorem getCompanyDetail_some (db : List Shipment) (name : String)
    (detail : CompanyDetail) (hd : getCompanyDetail db name = some detail) :
    ∃ first rest, companyStatsRows db name = first :: rest ∧
      detail.name = name ∧
      detail.country = first.country ∧
      detail.role =
        (if (companyStatsRows db name).any (fun s => s.role = "importer")
              && (companyStatsRows db name).any (fun s => s.role = "exporter")
          then "both"
          else
            if (companyStatsRows db name).any (fun s => s.role = "importer")
            then "importer"
            else "exporter") ∧
      detail.totalShipments =
        ((companyStatsRows db name).map DetailStatRow.shipments).sum ∧
      detail.totalWeight =
        ((companyStatsRows db name).map DetailStatRow.weight).sum := by
  rw [getCompanyDetail.eq_def] at hd
  rcases hcs : companyStatsRows db name with _ | ⟨f, r⟩
  · rw [hcs] at hd
    simp at hd
  · rw [hcs] at hd
    simp only [Option.some.injEq] at hd
    refine ⟨f, r, rfl, ?_⟩
    subst hd
    exact ⟨rfl, rfl, rfl, rfl, rfl⟩

theorem companyStatsRows_role_mem (db : List Shipment) (name : String)
    {r : DetailStatRow} (hr : r ∈ companyStatsRows db name) :
    r.role = "importer" ∨ r.role = "exporter" := by
  unfold companyStatsRows detailRoleRows at hr
  rcases List.mem_append.mp hr with h | h <;>
    rcases List.mem_map.mp h with ⟨k, _, rfl⟩
  · exact Or.inl rfl
  · exact Or.inr rfl

theorem companyStatsRows_any_importer (db : List Shipment) (name : String) :
    (companyStatsRows db name).any (fun s => s.role = "importer") = true ↔
      ∃ s ∈ db, s.importer_name = name := by
  rw [List.any_eq_true]
  constructor
  · intro ⟨r, hr, hrole⟩
    unfold companyStatsRows detailRoleRows at hr
    rcases List.mem_append.mp hr with h | h <;>
      rcases List.mem_map.mp h with ⟨k, hk, rfl⟩
    · rcases List.mem_dedup.mp hk with hk2
      rcases List.mem_map.mp hk2 with ⟨s, hs, _⟩
      rcases List.mem_filter.mp hs with ⟨hsdb, hsname⟩
      exact ⟨s, hsdb, by simpa using hsname⟩
    · simp at hrole
  · intro ⟨s, hs, hname⟩
    have hk : impSiteKey s ∈
        (((db.filter (fun x => x.importer_name = name)).map impSiteKey)).dedup :=
      List.mem_dedup.mpr
        (List.mem_map.mpr ⟨s, List.mem_filter.mpr ⟨hs, by simpa using hname⟩,
          rfl⟩)
    refine ⟨⟨"importer", (impSiteKey s).1, (impSiteKey s).2,
        ((db.filter (fun x => x.importer_name = name)).filter
          (fun x => impSiteKey x = impSiteKey s)).length,
        castInt (kgSum ((db.filter (fun x => x.importer_name = name)).filter
          (fun x => impSiteKey x = impSiteKey s)))⟩, ?_, ?_⟩
    · unfold companyStatsRows detailRoleRows
      exact List.mem_append.mpr (Or.inl (List.mem_map_of_mem _ hk))
    · simp

theorem companyStatsRows_any_exporter (db : List Shipment) (name : String) :
    (companyStatsRows db name).any (fun s => s.role = "exporter") = true ↔
      ∃ s ∈ db, s.exporter_name = name := by
  rw [List.any_eq_true]
  constructor
  · intro ⟨r, hr, hrole⟩
    unfold companyStatsRows detailRoleRows at hr
    rcases List.mem_append.mp hr with h | h <;>
      rcases List.mem_map.mp h with ⟨k, hk, rfl⟩
    · simp at hrole
    · rcases List.mem_dedup.mp hk with hk2
      rcases List.mem_map.mp hk2 with ⟨s, hs, _⟩
      rcases List.mem_filter.mp hs with ⟨hsdb, hsname⟩
      exact ⟨s, hsdb, by simpa using hsname⟩
  · intro ⟨s, hs, hname⟩
    have hk : expSiteKey s ∈
        (((db.filter (fun x => x.exporter_name = name)).map expSiteKey)).dedup :=
      List.mem_dedup.mpr
        (List.mem_map.mpr ⟨s, List.mem_filter.mpr ⟨hs, by simpa using hname⟩,
          rfl⟩)
    refine ⟨⟨"exporter", (expSiteKey s).1, (expSiteKey s).2,
        ((db.filter (fun x => x.exporter_name = name)).filter
          (fun x => expSiteKey x = expSiteKey s)).length,
        castInt (kgSum ((db.filter (fun x => x.exporter_name = name)).filter
          (fun x => expSiteKey x = expSiteKey s)))⟩, ?_, ?_⟩
    · unfold companyStatsRows detailRoleRows
      exact List.mem_append.mpr (Or.inr (List.mem_map_of_mem _ hk))
    · simp

/-- C5: for every name on which `getCompanyDetail` succeeds, the `role`
field is "both" exactly when the name occurs among the importer names and
among the exporter names of the dataset, "importer" exactly when it occurs
only among the importer names, and "exporter" exactly when it occurs only
among the exporter names. -/
theorem claim_C5_role_iff (db : List Shipment) (name : String)
    (detail : CompanyDetail) (hd : getCompanyDetail db name = some detail) :
    (detail.role = "both" ↔
        (∃ s ∈ db, s.importer_name = name) ∧
          ∃ s ∈ db, s.exporter_name = name) ∧
      (detail.role = "importer" ↔
        (∃ s ∈ db, s.importer_name = name) ∧
          ¬∃ s ∈ db, s.exporter_name = name) ∧
      (detail.role = "exporter" ↔
        (¬∃ s ∈ db, s.importer_name = name) ∧
          ∃ s ∈ db, s.exporter_name = name) := by
  obtain ⟨f, r, hcs, _, _, hrole, _, _⟩ := getCompanyDetail_some db name detail hd
  have hAiff := companyStatsRows_any_importer db name
  have hBiff := companyStatsRows_any_exporter db name
  cases hi : (companyStatsRows db name).any (fun s => s.role = "importer") <;>
    cases he : (companyStatsRows db name).any (fun s => s.role = "exporter")
  · exfalso
    have hf : f ∈ companyStatsRows db name := by
      rw [hcs]
      exact List.mem_cons_self f r
    rcases companyStatsRows_role_mem db name hf with h | h
    · have : (companyStatsRows db name).any (fun s => s.role = "importer") =
          true :=
        List.any_eq_true.mpr ⟨f, hf, by simp [h]⟩
      rw [hi] at this
      cases this
    · have : (companyStatsRows db name).any (fun s => s.role = "exporter") =
          true :=
        List.any_eq_true.mpr ⟨f, hf, by simp [h]⟩
      rw [he] at this
      cases this
  · simp only [hi, he, Bool.false_and, if_false, Bool.false_eq_true] at hrole
    have hnA : ¬∃ s ∈ db, s.importer_name = name := fun a => by
      have := hAiff.mpr a
      rw [hi] at this
      cases this
    have hB : ∃ s ∈ db, s.exporter_name = name := hBiff.mp he
    rw [hrole]
    refine ⟨?_, ?_, ?_⟩ <;> simp [hnA, hB]
  · simp only [hi, he, Bool.and_false, if_false, Bool.false_eq_true] at hrole
    have hA : ∃ s ∈ db, s.importer_name = name := hAiff.mp hi
    have hnB : ¬∃ s ∈ db, s.exporter_name = name := fun b => by
      have := hBiff.mpr b
      rw [he] at this
      cases this
    rw [hrole]
    refine ⟨?_, ?_, ?_⟩ <;> simp [hA, hnB]
  · simp only [hi, he, Bool.and_self, if_true] at hrole
    have hA : ∃ s ∈ db, s.importer_name = name := hAiff.mp hi
    have hB : ∃ s ∈ db, s.exporter_name = name := hBiff.mp he
    rw [hrole]
    refine ⟨?_, ?_, ?_⟩ <;> simp [hA, hB]

/-- Witness for C5: in the example dataset the company "A" imports one
shipment and exports another, and its detail reports role "both". -/
theorem claim_C5_role_iff_witness :
    ∃ detail, getCompanyDetail exDbC1 "A" = some detail ∧
      detail.role = "both" := by
  refine ⟨_, rfl, ?_⟩
  exact (claim_C5_role_iff exDbC1 "A" _ rfl).1.mpr
    ⟨by decide, by decide⟩

/-- C10: `getCompanyDetail` identifies a company by name alone, not by the
(name, country) pair the company list uses: the returned record's `name` is
the verbatim input string, `totalShipments` counts every shipment in which
the name appears as importer plus every one in which it appears as exporter,
across all countries, `totalWeight` sums the integer-cast weight of every
(country, website) sub-group of both roles, and `country` is the country of
the first grouped stats row. -/
theorem claim_C10_detail_by_name (db : List Shipment) (name : String)
    (detail : CompanyDetail) (hd : getCompanyDetail db name = some detail) :
    detail.name = name ∧
      detail.totalShipments =
          (db.filter (fun s => s.importer_name = name)).length +
            (db.filter (fun s => s.exporter_name = name)).length ∧
      detail.totalWeight =
          ((((db.filter (fun s => s.importer_name = name)).map
                impSiteKey).dedup).map
              (fun k =>
                castInt
                  (kgSum ((db.filter (fun s => s.importer_name = name)).filter
                    (fun s => impSiteKey s = k))))).sum +
            ((((db.filter (fun s => s.exporter_name = name)).map
                  expSiteKey).dedup).map
              (fun k =>
                castInt
                  (kgSum ((db.filter (fun s => s.exporter_name = name)).filter
                    (fun s => expSiteKey s = k))))).sum ∧
      ∃ first rest, companyStatsRows db name = first :: rest ∧
        detail.country = first.country := by
  obtain ⟨f, r, hcs, hname, hcountry, _, hships, hweight⟩ :=
    getCompanyDetail_some db name detail hd
  refine ⟨hname, ?_, ?_, f, r, hcs, hcountry⟩
  · rw [hships, companyStatsRows_shipments_sum]
  · rw [hweight, companyStatsRows_weight_sum]

/-- Witness for C10: with the name "A" appearing as importer in two distinct
countries, the detail is a single record counting both shipments, whose
country is that of the first grouped row. -/
theorem claim_C10_detail_by_name_witness :
    ∃ detail, getCompanyDetail exDbC10 "A" = some detail ∧
      detail.name = "A" ∧ detail.totalShipments = 2 ∧
        detail.country = "X" := by
  refine ⟨_, rfl, ?_⟩
  have h := claim_C10_detail_by_name exDbC10 "A" _ rfl
  refine ⟨h.1, ?_, ?_⟩
  · rw [h.2.1]
    decide
  · obtain ⟨first, rest, hcs, hc⟩ := h.2.2.2
    have h5 : ((companyStatsRows exDbC10 "A").head?).map DetailStatRow.country =
        some first.country := by
      rw [hcs]
      rfl
    have h6 : ((companyStatsRows exDbC10 "A").head?).map DetailStatRow.country =
        some "X" := by decide
    have h7 := h5.symm.trans h6
    injection h7 with h8
    rw [hc, h8]

/-- C3 (amended): in every weight-reporting aggregation, the per-row weights
are scaled to kilograms (weight * 1000) before summation, each SQL
aggregation group's scaled sum receives a single integer cast, and where a
second aggregation level exists — the company queries' outer GROUP BY and
`getCompanyDetail`'s total — the outer summation ranges over the already
cast per-group integers, so per-group rounding accumulates.  (The claim as
stated — summation over already-cast integer per-row values — does not hold;
see the counterexample.) -/
theorem claim_C3_weight_cast_amended (db : List Shipment) (name : String)
    (limit offset : Nat) (detail : CompanyDetail)
    (hd : getCompanyDetail db name = some detail) :
    (∀ item : CompanyListItem,
        item ∈ transformShipmentsToCompanies db ∨
            item ∈ (getCompanies db limit offset).data →
          item.totalWeight =
            castInt (kgSum (db.filter (fun s => impKey s = cliKey item))) +
              castInt (kgSum (db.filter (fun s => expKey s = cliKey item)))) ∧
      (∀ e ∈ statsTopCommodities db,
          e.kg =
            castInt
              (kgSum (db.filter (fun s => s.commodity_name = e.commodity)))) ∧
      (∀ e ∈ (getCompanyStats db).monthlyVolume, ∃ k,
          e.kg =
            castInt
              (kgSum (db.filter (fun s => ymChars s.shipment_date = k)))) ∧
      detail.totalWeight =
        ((((db.filter (fun s => s.importer_name = name)).map
              impSiteKey).dedup).map
            (fun k =>
              castInt
                (kgSum ((db.filter (fun s => s.importer_name = name)).filter
                  (fun s => impSiteKey s = k))))).sum +
          ((((db.filter (fun s => s.exporter_name = name)).map
                expSiteKey).dedup).map
            (fun k =>
              castInt
                (kgSum ((db.filter (fun s => s.exporter_name = name)).filter
                  (fun s => expSiteKey s = k))))).sum := by
  refine ⟨?_, ?_, ?_, ?_⟩
  · intro item hmem
    have hground : item ∈ companiesGrouped db := by
      rcases hmem with hmem | hmem
      · exact (List.mem_insertionSort _).mp hmem
      · exact (List.mem_insertionSort _).mp
          ((page_sublist db limit offset).subset hmem)
    exact (mem_companiesGrouped_totals db hground).2
  · intro e he
    have h1 : e ∈ ((db.map Shipment.commodity_name).dedup).map (fun c =>
        (⟨c, castInt (kgSum (db.filter (fun s => s.commodity_name = c)))⟩ :
          TopCommodity)) := by
      have := (List.take_sublist 5 _).subset he
      exact (List.mem_insertionSort _).mp this
    rcases List.mem_map.mp h1 with ⟨c, _, rfl⟩
    rfl
  · intro e he
    have h1 : e ∈ (List.insertionSort
        (fun a b => charListLe (ymChars a.1) (ymChars b.1) = true)
        ((((db.map (fun s => ymChars s.shipment_date)).dedup).map (fun k =>
            db.filter (fun s => ymChars s.shipment_date = k))).map (fun g =>
          (minDateOf g, castInt (kgSum g))))).map (fun r =>
        (⟨String.mk (monLabelChars r.1), r.2⟩ : MonthlyVolumeItem)) := he
    rcases List.mem_map.mp h1 with ⟨r, hr, rfl⟩
    have h2 := (List.mem_insertionSort _).mp hr
    rcases List.mem_map.mp h2 with ⟨g, hg, rfl⟩
    rcases List.mem_map.mp hg with ⟨k, _, rfl⟩
    exact ⟨k, rfl⟩
  · obtain ⟨_, _, _, _, _, _, _, hweight⟩ :=
      getCompanyDetail_some db name detail hd
    rw [hweight, companyStatsRows_weight_sum]

/-- Counterexample to C3 as stated: in `exDbC3` (two shipments of 0.0004
tonnes, same importer ("A", "X")), the reported company weight is 1 kg —
DuckDB casts the group sum 0.8 once — whereas summing already-cast integer
per-row values (0 + 0) gives 0. -/
theorem claim_C3_counterexample :
    ∃ item ∈ transformShipmentsToCompanies exDbC3,
      cliKey item = ("A", "X") ∧ item.totalWeight = 1 ∧
        ((exDbC3.filter (fun s => impKey s = ("A", "X"))).map
              (fun s => castInt (s.weight_metric_tonnes * 1000))).sum +
            ((exDbC3.filter (fun s => expKey s = ("A", "X"))).map
              (fun s => castInt (s.weight_metric_tonnes * 1000))).sum = 0 := by
  have hk : ("A", "X") ∈
      ((importersCTE exDbC3 ++ exportersCTE exDbC3).map raKey).dedup := by
    decide
  have hmem0 :
      (⟨"A", "X",
        (((importersCTE exDbC3 ++ exportersCTE exDbC3).filter
            (fun r => raKey r = ("A", "X"))).map RoleAgg.shipments).sum,
        (((importersCTE exDbC3 ++ exportersCTE exDbC3).filter
            (fun r => raKey r = ("A", "X"))).map RoleAgg.weight).sum⟩ :
        CompanyListItem) ∈ companiesGrouped exDbC3 := by
    unfold companiesGrouped
    exact List.mem_map_of_mem _ hk
  have hmem :=
    (List.mem_insertionSort
      (fun a b : CompanyListItem =>
        b.totalShipments ≤ a.totalShipments)).mpr hmem0
  have h1 : exDbC3.filter (fun s => impKey s = ("A", "X")) = exDbC3 := rfl
  have h2 : exDbC3.filter (fun s => expKey s = ("A", "X")) = [] := rfl
  refine ⟨_, hmem, rfl, ?_, ?_⟩
  · show (((importersCTE exDbC3 ++ exportersCTE exDbC3).filter
        (fun r => raKey r = ("A", "X"))).map RoleAgg.weight).sum = 1
    rw [List.filter_append, List.map_append, List.sum_append, importersCTE,
      exportersCTE, role_weight_sum, role_weight_sum, h1, h2]
    norm_num [kgSum, exDbC3, castInt]
  · rw [h1, h2]
    norm_num [exDbC3, castInt]

/-- Witness for the amended C3 at a concrete input: for company "A" of the
example dataset the detail weight is the sum of the integer-cast per-group
weights, 2000 + 3000 = 5000. -/
theorem claim_C3_weight_cast_amended_witness :
    ∃ detail, getCompanyDetail exDbC1 "A" = some detail ∧
      detail.totalWeight = 5000 := by
  refine ⟨_, rfl, ?_⟩
  have h := (claim_C3_weight_cast_amended exDbC1 "A" 1 0 _ rfl).2.2.2
  rw [h]
  have e1 : exDbC1.filter (fun s => s.importer_name = "A") =
      [(⟨"A", "X", none, "B", "Y", none, "steel", 2, ⟨2024, 1, 5⟩⟩ :
        Shipment)] := rfl
  have e2 : exDbC1.filter (fun s => s.exporter_name = "A") =
      [(⟨"C", "Z", none, "A", "X", none, "coal", 3, ⟨2024, 2, 6⟩⟩ :
        Shipment)] := rfl
  rw [e1, e2]
  have e3 : (([(⟨"A", "X", none, "B", "Y", none, "steel", 2, ⟨2024, 1, 5⟩⟩ :
        Shipment)].map impSiteKey).dedup) = [("X", (none : Option String))] :=
    rfl
  have e4 : (([(⟨"C", "Z", none, "A", "X", none, "coal", 3, ⟨2024, 2, 6⟩⟩ :
        Shipment)].map expSiteKey).dedup) = [("X", (none : Option String))] :=
    rfl
  rw [e3, e4]
  have e5 : [(⟨"A", "X", none, "B", "Y", none, "steel", 2, ⟨2024, 1, 5⟩⟩ :
        Shipment)].filter
        (fun s => impSiteKey s = ("X", (none : Option String))) =
      [(⟨"A", "X", none, "B", "Y", none, "steel", 2, ⟨2024, 1, 5⟩⟩ :
        Shipment)] := rfl
  have e6 : [(⟨"C", "Z", none, "A", "X", none, "coal", 3, ⟨2024, 2, 6⟩⟩ :
        Shipment)].filter
        (fun s => expSiteKey s = ("X", (none : Option String))) =
      [(⟨"C", "Z", none, "A", "X", none, "coal", 3, ⟨2024, 2, 6⟩⟩ :
        Shipment)] := rfl
  simp only [List.map_cons, List.map_nil, List.sum_cons, List.sum_nil, e5, e6]
  norm_num [kgSum, castInt]

/-- C8: on the paginated list endpoints, a missing or unparsable (NaN) or
negative `limit` yields the effective limit 100 and likewise `offset` yields
0; a parsed `limit` above 1000 is clamped to 1000; and both handlers call
the data layer with exactly these effective values. -/
theorem claim_C8_pagination_params (db : List Shipment)
    (v qlimit qoffset qsearch : Option String) :
    (jsParseInt10 v = none →
        parsePositiveInt v DEFAULT_LIMIT (some MAX_LIMIT) = 100 ∧
          parsePositiveInt v 0 none = 0) ∧
      (∀ n : Int, jsParseInt10 v = some n → n < 0 →
          parsePositiveInt v DEFAULT_LIMIT (some MAX_LIMIT) = 100 ∧
            parsePositiveInt v 0 none = 0) ∧
      (∀ n : Int, jsParseInt10 v = some n → 1000 < n →
          parsePositiveInt v DEFAULT_LIMIT (some MAX_LIMIT) = 1000) ∧
      (∀ n : Int, jsParseInt10 v = some n → 0 ≤ n → n ≤ 1000 →
          parsePositiveInt v DEFAULT_LIMIT (some MAX_LIMIT) = n) ∧
      shipmentsHandler db qlimit qoffset =
          loadShipments db
            (parsePositiveInt qlimit DEFAULT_LIMIT (some MAX_LIMIT)).toNat
            (parsePositiveInt qoffset 0 none).toNat ∧
      companiesHandler db qlimit qoffset qsearch =
          getCompanies db
            (parsePositiveInt qlimit DEFAULT_LIMIT (some MAX_LIMIT)).toNat
            (parsePositiveInt qoffset 0 none).toNat := by
  refine ⟨?_, ?_, ?_, ?_, rfl, rfl⟩
  · intro h
    simp [parsePositiveInt, h, DEFAULT_LIMIT]
  · intro n h hn
    simp [parsePositiveInt, h, hn, DEFAULT_LIMIT]
  · intro n h hn
    have h0 : ¬n < 0 := by omega
    simp [parsePositiveInt, h, h0, MAX_LIMIT, hn]
  · intro n h h0 h1
    have h2 : ¬n < 0 := by omega
    have h3 : ¬MAX_LIMIT < n := by
      simp only [MAX_LIMIT]
      omega
    simp [parsePositiveInt, h, h2, h3]

/-- Witness for C8 at concrete query strings: an unparsable limit gives 100,
a missing offset gives 0, a negative limit gives 100, and limit 5000 clamps
to 1000. -/
theorem claim_C8_pagination_params_witness :
    parsePositiveInt (some "abc") DEFAULT_LIMIT (some MAX_LIMIT) = 100 ∧
      parsePositiveInt none 0 none = 0 ∧
      parsePositiveInt (some "-5") DEFAULT_LIMIT (some MAX_LIMIT) = 100 ∧
      parsePositiveInt (some "5000") DEFAULT_LIMIT (some MAX_LIMIT) = 1000 ∧
      parsePositiveInt (some "40") DEFAULT_LIMIT (some MAX_LIMIT) = 40 :=
  ⟨((claim_C8_pagination_params [] (some "abc") none none none).1
      (by decide)).1,
    ((claim_C8_pagination_params [] none none none none).1 (by decide)).2,
    ((claim_C8_pagination_params [] (some "-5") none none none).2.1 (-5)
      (by decide) (by decide)).1,
    (claim_C8_pagination_params [] (some "5000") none none none).2.2.1 5000
      (by decide) (by decide),
    (claim_C8_pagination_params [] (some "40") none none none).2.2.2.1 40
      (by decide) (by decide) (by decide)⟩

theorem char_toNat_inj {c d : Char} (h : c.toNat = d.toNat) : c = d := by
  have h2 := congrArg Char.ofNat h
  rwa [Char.ofNat_toNat, Char.ofNat_toNat] at h2

theorem digCh_toNat {k : Nat} (hk : k ≤ 9) : (digCh k).toNat = 48 + k := by
  interval_cases k <;> decide

theorem digitsVal_foldl (ds : List Char) :
    ∀ a : Nat,
      ds.foldl (fun acc c => 10 * acc + (c.toNat - 48)) a =
        a * 10 ^ ds.length + digitsVal ds := by
  induction ds with
  | nil =>
    intro a
    simp [digitsVal]
  | cons c ds ih =>
    intro a
    have hcons : digitsVal (c :: ds) =
        (c.toNat - 48) * 10 ^ ds.length + digitsVal ds := by
      show ds.foldl _ (10 * 0 + (c.toNat - 48)) = _
      rw [ih]
      ring_nf
    show ds.foldl _ (10 * a + (c.toNat - 48)) = _
    rw [ih, hcons, List.length_cons]
    ring

theorem digitsVal_cons (c : Char) (ds : List Char) :
    digitsVal (c :: ds) = (c.toNat - 48) * 10 ^ ds.length + digitsVal ds := by
  show ds.foldl _ (10 * 0 + (c.toNat - 48)) = _
  rw [digitsVal_foldl]
  ring_nf

theorem digitsVal_lt (ds : List Char)
    (h : ∀ c ∈ ds, ∃ k ≤ 9, c = digCh k) :
    digitsVal ds < 10 ^ ds.length := by
  induction ds with
  | nil => simp [digitsVal]
  | cons c ds ih =>
    rw [digitsVal_cons, List.length_cons, pow_succ]
    obtain ⟨k, hk, rfl⟩ := h c (List.mem_cons_self c ds)
    have h1 : (digCh k).toNat - 48 = k := by
      rw [digCh_toNat hk]
      omega
    have h2 := ih (fun c hc => h c (List.mem_cons_of_mem _ hc))
    rw [h1]
    calc k * 10 ^ ds.length + digitsVal ds
        < k * 10 ^ ds.length + 10 ^ ds.length := by omega
      _ = (k + 1) * 10 ^ ds.length := by ring
      _ ≤ 10 * 10 ^ ds.length := Nat.mul_le_mul_right _ (by omega)
      _ = 10 ^ ds.length * 10 := by ring

theorem natDigitsFuel_val :
    ∀ fuel n : Nat, n < 10 ^ fuel →
      digitsVal (natDigitsFuel fuel n) = n := by
  intro fuel
  induction fuel with
  | zero =>
    intro n h
    norm_num at h
    simp [natDigitsFuel, h, digitsVal]
  | succ fuel ih =>
    intro n h
    simp only [natDigitsFuel]
    by_cases h10 : n < 10
    · rw [if_pos h10, digitsVal_cons]
      simp [digCh_toNat (by omega : n ≤ 9), digitsVal]
    · rw [if_neg h10]
      have hval :
          digitsVal (natDigitsFuel fuel (n / 10) ++ [digCh (n % 10)]) =
            10 * digitsVal (natDigitsFuel fuel (n / 10)) +
              ((digCh (n % 10)).toNat - 48) := by
        show (natDigitsFuel fuel (n / 10) ++ [digCh (n % 10)]).foldl
            (fun acc c => 10 * acc + (c.toNat - 48)) 0 = _
        rw [List.foldl_append]
        rfl
      rw [hval, ih (n / 10) (by
        rw [Nat.div_lt_iff_lt_mul (by norm_num : 0 < (10 : Nat))]
        calc n < 10 ^ (fuel + 1) := h
          _ = 10 ^ fuel * 10 := by rw [pow_succ]),
        digCh_toNat (by omega : n % 10 ≤ 9)]
      omega

theorem natDigitsFuel_digits :
    ∀ fuel n : Nat, ∀ c ∈ natDigitsFuel fuel n, ∃ k ≤ 9, c = digCh k := by
  intro fuel
  induction fuel with
  | zero =>
    intro n c hc
    simp [natDigitsFuel] at hc
  | succ fuel ih =>
    intro n c hc
    simp only [natDigitsFuel] at hc
    by_cases h10 : n < 10
    · rw [if_pos h10] at hc
      simp at hc
      exact ⟨n, by omega, hc⟩
    · rw [if_neg h10] at hc
      rcases List.mem_append.mp hc with h | h
      · exact ih _ c h
      · simp at h
        exact ⟨n % 10, by omega, h⟩

theorem natDigitsFuel_len :
    ∀ fuel n k : Nat, n < 10 ^ k → 1 ≤ k →
      (natDigitsFuel fuel n).length ≤ k := by
  intro fuel
  induction fuel with
  | zero =>
    intro n k _ _
    simp [natDigitsFuel]
  | succ fuel ih =>
    intro n k h hk
    simp only [natDigitsFuel]
    by_cases h10 : n < 10
    · rw [if_pos h10]
      simpa using hk
    · rw [if_neg h10]
      rw [List.length_append]
      have hk2 : 2 ≤ k := by
        rcases Nat.lt_or_ge k 2 with hlt | hge
        · exfalso
          have hk1 : k = 1 := by omega
          subst hk1
          norm_num at h
          omega
        · exact hge
      have hrec := ih (n / 10) (k - 1) (by
        rw [Nat.div_lt_iff_lt_mul (by norm_num : 0 < (10 : Nat))]
        calc n < 10 ^ k := h
          _ = 10 ^ (k - 1) * 10 := by
            rw [← pow_succ]
            congr 1
            omega) (by omega)
      simp only [List.length_cons, List.length_nil]
      omega

theorem foldl_replicate_zeros (k : Nat) :
    (List.replicate k '0').foldl (fun acc c => 10 * acc + (c.toNat - 48)) 0 =
      0 := by
  induction k with
  | zero => rfl
  | succ k ih =>
    rw [List.replicate_succ, List.foldl_cons]
    have h0 : (10 * 0 + ('0'.toNat - 48)) = 0 := by decide
    rw [h0]
    exact ih

theorem digitsVal_padZeros (w : Nat) (ds : List Char) :
    digitsVal (padZeros w ds) = digitsVal ds := by
  show (List.replicate (w - ds.length) '0' ++ ds).foldl _ 0 = _
  rw [List.foldl_append, foldl_replicate_zeros]
  rfl

theorem padZeros_len {w : Nat} {ds : List Char} (h : ds.length ≤ w) :
    (padZeros w ds).length = w := by
  unfold padZeros
  rw [List.length_append, List.length_replicate]
  omega

theorem padZeros_digits (w : Nat) (ds : List Char)
    (h : ∀ c ∈ ds, ∃ k ≤ 9, c = digCh k) :
    ∀ c ∈ padZeros w ds, ∃ k ≤ 9, c = digCh k := by
  intro c hc
  unfold padZeros at hc
  rcases List.mem_append.mp hc with h1 | h1
  · exact ⟨0, by omega, by rw [List.eq_of_mem_replicate h1]; decide⟩
  · exact h c h1

theorem pad4_val (n : Nat) : digitsVal (pad4 n) = n := by
  unfold pad4 natToDigits
  rw [digitsVal_padZeros]
  exact natDigitsFuel_val (n + 1) n
    (lt_of_lt_of_le (Nat.lt_pow_self (by norm_num) n)
      (Nat.pow_le_pow_right (by norm_num) (Nat.le_succ n)))

theorem pad4_inj {m n : Nat} (h : pad4 m = pad4 n) : m = n := by
  have h2 := congrArg digitsVal h
  rwa [pad4_val, pad4_val] at h2

theorem pad4_len {n : Nat} (h : n ≤ 9999) : (pad4 n).length = 4 := by
  unfold pad4 natToDigits
  exact padZeros_len (natDigitsFuel_len (n + 1) n 4
    (by norm_num; omega) (by norm_num))

theorem pad4_digits (n : Nat) : ∀ c ∈ pad4 n, ∃ k ≤ 9, c = digCh k :=
  padZeros_digits _ _ (natDigitsFuel_digits _ _)

theorem pad2_val (n : Nat) : digitsVal (pad2 n) = n := by
  unfold pad2 natToDigits
  rw [digitsVal_padZeros]
  exact natDigitsFuel_val (n + 1) n
    (lt_of_lt_of_le (Nat.lt_pow_self (by norm_num) n)
      (Nat.pow_le_pow_right (by norm_num) (Nat.le_succ n)))

theorem pad2_len {n : Nat} (h : n ≤ 99) : (pad2 n).length = 2 := by
  unfold pad2 natToDigits
  exact padZeros_len (natDigitsFuel_len (n + 1) n 2
    (by norm_num; omega) (by norm_num))

theorem pad2_digits (n : Nat) : ∀ c ∈ pad2 n, ∃ k ≤ 9, c = digCh k :=
  padZeros_digits _ _ (natDigitsFuel_digits _ _)

theorem charListLe_total :
    ∀ ds es : List Char, charListLe ds es = true ∨ charListLe es ds = true := by
  intro ds
  induction ds with
  | nil =>
    intro es
    exact Or.inl rfl
  | cons c ds ih =>
    intro es
    cases es with
    | nil => exact Or.inr rfl
    | cons d es =>
      by_cases h : c = d
      · subst h
        rcases ih es with h1 | h1
        · left
          simpa [charListLe] using h1
        · right
          simpa [charListLe] using h1
      · have hne : c.toNat ≠ d.toNat := fun he => h (char_toNat_inj he)
        rcases Nat.lt_or_ge c.toNat d.toNat with hlt | hge
        · left
          simp [charListLe, h, hlt]
        · right
          have : d.toNat < c.toNat := by omega
          simp [charListLe, Ne.symm h, this]

theorem charListLe_trans :
    ∀ as bs cs : List Char, charListLe as bs = true →
      charListLe bs cs = true → charListLe as cs = true := by
  intro as
  induction as with
  | nil =>
    intro bs cs _ _
    rfl
  | cons a as ih =>
    intro bs cs h1 h2
    cases bs with
    | nil => simp [charListLe] at h1
    | cons b bs =>
      cases cs with
      | nil => simp [charListLe] at h2
      | cons c cs =>
        simp only [charListLe] at h1 h2 ⊢
        by_cases hab : a = b <;> by_cases hbc : b = c
        · subst hab
          subst hbc
          rw [if_pos rfl] at h1 h2 ⊢
          exact ih bs cs h1 h2
        · subst hab
          rw [if_pos rfl] at h1
          rw [if_neg hbc] at h2 ⊢
          exact h2
        · subst hbc
          rw [if_neg hab] at h1 ⊢
          exact h1
        · rw [if_neg hab] at h1
          rw [if_neg hbc] at h2
          have h3 : a.toNat < b.toNat := of_decide_eq_true h1
          have h4 : b.toNat < c.toNat := of_decide_eq_true h2
          have h5 : a ≠ c := fun he => by
            subst he
            omega
          rw [if_neg h5]
          exact decide_eq_true (by omega)

theorem charListLe_digits_le :
    ∀ ds es : List Char, ds.length = es.length →
      (∀ c ∈ ds, ∃ k ≤ 9, c = digCh k) →
      (∀ c ∈ es, ∃ k ≤ 9, c = digCh k) →
      charListLe ds es = true → digitsVal ds ≤ digitsVal es := by
  intro ds
  induction ds with
  | nil =>
    intro es hlen _ _ _
    cases es with
    | nil => exact le_refl _
    | cons d es => simp at hlen
  | cons c ds ih =>
    intro es hlen hd he hle
    cases es with
    | nil => simp at hlen
    | cons d es =>
      simp only [List.length_cons] at hlen
      have hlen2 : ds.length = es.length := by omega
      rw [digitsVal_cons, digitsVal_cons, hlen2]
      obtain ⟨kc, hkc, rfl⟩ := hd _ (List.mem_cons_self _ _)
      obtain ⟨kd, hkd, rfl⟩ := he _ (List.mem_cons_self _ _)
      simp only [charListLe] at hle
      by_cases hcd : digCh kc = digCh kd
      · rw [if_pos hcd] at hle
        have htails := ih es hlen2
          (fun c hc => hd c (List.mem_cons_of_mem _ hc))
          (fun c hc => he c (List.mem_cons_of_mem _ hc)) hle
        have hkk : kc = kd := by
          have h6 := congrArg Char.toNat hcd
          rw [digCh_toNat hkc, digCh_toNat hkd] at h6
          omega
        subst hkk
        omega
      · rw [if_neg hcd] at hle
        have hlt : (digCh kc).toNat < (digCh kd).toNat := of_decide_eq_true hle
        rw [digCh_toNat hkc, digCh_toNat hkd] at hlt
        have h1 : digitsVal ds < 10 ^ es.length := by
          rw [← hlen2]
          exact digitsVal_lt ds (fun c hc => hd c (List.mem_cons_of_mem _ hc))
        have h2 : (digCh kc).toNat - 48 = kc := by
          rw [digCh_toNat hkc]
          omega
        have h3 : (digCh kd).toNat - 48 = kd := by
          rw [digCh_toNat hkd]
          omega
        rw [h2, h3]
        refine le_of_lt ?_
        calc kc * 10 ^ es.length + digitsVal ds
            < kc * 10 ^ es.length + 10 ^ es.length := by omega
          _ = (kc + 1) * 10 ^ es.length := by ring
          _ ≤ kd * 10 ^ es.length := Nat.mul_le_mul_right _ (by omega)
          _ ≤ kd * 10 ^ es.length + digitsVal es := by omega

theorem charListLe_append :
    ∀ s₁ s₂ t₁ t₂ : List Char, s₁.length = s₂.length →
      charListLe (s₁ ++ t₁) (s₂ ++ t₂) = true →
      (s₁ = s₂ ∧ charListLe t₁ t₂ = true) ∨
        (s₁ ≠ s₂ ∧ charListLe s₁ s₂ = true) := by
  intro s₁
  induction s₁ with
  | nil =>
    intro s₂ t₁ t₂ hlen h
    have hs : s₂ = [] := List.length_eq_zero.mp hlen.symm
    subst hs
    exact Or.inl ⟨rfl, h⟩
  | cons a s₁ ih =>
    intro s₂ t₁ t₂ hlen h
    cases s₂ with
    | nil => simp at hlen
    | cons b s₂ =>
      simp only [List.length_cons] at hlen
      simp only [List.cons_append, charListLe] at h
      by_cases hab : a = b
      · subst hab
        rw [if_pos rfl] at h
        rcases ih s₂ t₁ t₂ (by omega) h with ⟨h1, h2⟩ | ⟨h1, h2⟩
        · exact Or.inl ⟨by rw [h1], h2⟩
        · refine Or.inr ⟨?_, ?_⟩
          · intro he
            injection he with _ h3
            exact h1 h3
          · simp only [charListLe, if_pos rfl]
            exact h2
      · rw [if_neg hab] at h
        refine Or.inr ⟨?_, ?_⟩
        · intro he
          injection he with h3 _
          exact hab h3
        · simp only [charListLe, if_neg hab]
          exact h

theorem ymChars_le {d₁ d₂ : ShipDate} (h₁ : validYM d₁) (h₂ : validYM d₂)
    (hle : charListLe (ymChars d₁) (ymChars d₂) = true) :
    ymPairLe (d₁.year, d₁.month) (d₂.year, d₂.month) := by
  obtain ⟨hm1a, hm1b, hy1⟩ := h₁
  obtain ⟨hm2a, hm2b, hy2⟩ := h₂
  unfold ymChars at hle
  rcases charListLe_append (pad4 d₁.year) (pad4 d₂.year) _ _
      (by rw [pad4_len hy1, pad4_len hy2]) hle with ⟨heq, hrest⟩ | ⟨hne, hy⟩
  · have hyeq : d₁.year = d₂.year := pad4_inj heq
    simp only [charListLe, if_pos rfl] at hrest
    have hmle := charListLe_digits_le (pad2 d₁.month) (pad2 d₂.month)
      (by rw [pad2_len (by omega), pad2_len (by omega)])
      (pad2_digits _) (pad2_digits _) hrest
    rw [pad2_val, pad2_val] at hmle
    exact Or.inr ⟨hyeq, hmle⟩
  · have hyle := charListLe_digits_le _ _
      (by rw [pad4_len hy1, pad4_len hy2]) (pad4_digits _) (pad4_digits _) hy
    rw [pad4_val, pad4_val] at hyle
    have hyne : d₁.year ≠ d₂.year := fun he => hne (by rw [he])
    exact Or.inl (by omega)

theorem ymChars_inj {d₁ d₂ : ShipDate} (h₁ : validYM d₁) (h₂ : validYM d₂)
    (he : ymChars d₁ = ymChars d₂) :
    d₁.year = d₂.year ∧ d₁.month = d₂.month := by
  obtain ⟨hm1a, hm1b, hy1⟩ := h₁
  obtain ⟨hm2a, hm2b, hy2⟩ := h₂
  unfold ymChars at he
  have hlen : (pad4 d₁.year).length = (pad4 d₂.year).length := by
    rw [pad4_len hy1, pad4_len hy2]
  obtain ⟨he1, he2⟩ := List.append_inj he hlen
  refine ⟨pad4_inj he1, ?_⟩
  injection he2 with _ he3
  have h4 := congrArg digitsVal he3
  rwa [pad2_val, pad2_val] at h4

theorem dedup_map_of_injOn {α β : Type _} [DecidableEq α] [DecidableEq β]
    (f : α → β) (l : List α)
    (hf : ∀ a ∈ l, ∀ b ∈ l, f a = f b → a = b) :
    (l.map f).dedup = l.dedup.map f := by
  induction l with
  | nil => simp
  | cons a l ih =>
    have hf2 : ∀ x ∈ l, ∀ y ∈ l, f x = f y → x = y := fun x hx y hy =>
      hf x (List.mem_cons_of_mem _ hx) y (List.mem_cons_of_mem _ hy)
    by_cases ha : a ∈ l
    · have hfa : f a ∈ l.map f := List.mem_map_of_mem f ha
      rw [List.map_cons, List.dedup_cons_of_mem hfa,
        List.dedup_cons_of_mem ha, ih hf2]
    · have hfa : f a ∉ l.map f := by
        intro hmem
        rcases List.mem_map.mp hmem with ⟨b, hb, hfb⟩
        have hba := hf b (List.mem_cons_of_mem _ hb) a
          (List.mem_cons_self _ _) hfb
        subst hba
        exact ha hb
      rw [List.map_cons, List.dedup_cons_of_not_mem hfa,
        List.dedup_cons_of_not_mem ha, List.map_cons, ih hf2]

theorem foldl_minDate_mem :
    ∀ (l : List Shipment) (acc : ShipDate),
      l.foldl
          (fun acc t =>
            if dateLeB t.shipment_date acc then t.shipment_date else acc)
          acc =
          acc ∨
        l.foldl
            (fun acc t =>
              if dateLeB t.shipment_date acc then t.shipment_date else acc)
            acc ∈
          l.map Shipment.shipment_date := by
  intro l
  induction l with
  | nil =>
    intro acc
    exact Or.inl rfl
  | cons t l ihl =>
    intro acc
    simp only [List.foldl_cons, List.map_cons]
    by_cases hd : dateLeB t.shipment_date acc
    · rw [if_pos hd]
      rcases ihl t.shipment_date with h1 | h1
      · right
        rw [h1]
        exact List.mem_cons_self _ _
      · right
        exact List.mem_cons_of_mem _ h1
    · rw [if_neg hd]
      rcases ihl acc with h1 | h1
      · left
        exact h1
      · right
        exact List.mem_cons_of_mem _ h1

theorem minDateOf_mem (rows : List Shipment) (h : rows ≠ []) :
    minDateOf rows ∈ rows.map Shipment.shipment_date := by
  cases rows with
  | nil => exact absurd rfl h
  | cons s rest =>
    have hm : minDateOf (s :: rest) =
        rest.foldl
          (fun acc t =>
            if dateLeB t.shipment_date acc then t.shipment_date else acc)
          s.shipment_date := rfl
    rw [hm]
    rcases foldl_minDate_mem rest s.shipment_date with h1 | h1
    · rw [h1, List.map_cons]
      exact List.mem_cons_self _ _
    · rw [List.map_cons]
      exact List.mem_cons_of_mem _ h1

theorem ymp_injOn (db : List Shipment)
    (hv : ∀ s ∈ db, validYM s.shipment_date) :
    ∀ p ∈ db.map (fun s => (s.shipment_date.year, s.shipment_date.month)),
      ∀ q ∈ db.map (fun s => (s.shipment_date.year, s.shipment_date.month)),
        (pad4 p.1 ++ '-' :: pad2 p.2) = (pad4 q.1 ++ '-' :: pad2 q.2) →
          p = q := by
  intro p hp q hq he
  rcases List.mem_map.mp hp with ⟨s, hs, rfl⟩
  rcases List.mem_map.mp hq with ⟨t, ht, rfl⟩
  have h1 : validYM ⟨s.shipment_date.year, s.shipment_date.month, 0⟩ :=
    hv s hs
  have h2 : validYM ⟨t.shipment_date.year, t.shipment_date.month, 0⟩ :=
    hv t ht
  have h3 := ymChars_inj h1 h2 he
  exact Prod.ext h3.1 h3.2

theorem monthly_keys_eq (db : List Shipment)
    (hv : ∀ s ∈ db, validYM s.shipment_date) :
    (db.map (fun s => ymChars s.shipment_date)).dedup =
      ((db.map
          (fun s => (s.shipment_date.year, s.shipment_date.month))).dedup).map
        (fun p => pad4 p.1 ++ '-' :: pad2 p.2) := by
  have hmm : db.map (fun s => ymChars s.shipment_date) =
      (db.map (fun s => (s.shipment_date.year, s.shipment_date.month))).map
        (fun p => pad4 p.1 ++ '-' :: pad2 p.2) := by
    rw [List.map_map]
    rfl
  rw [hmm, dedup_map_of_injOn _ _ (ymp_injOn db hv)]

theorem monthly_group_eq (db : List Shipment)
    (hv : ∀ s ∈ db, validYM s.shipment_date) :
    ∀ p ∈ (db.map
        (fun s => (s.shipment_date.year, s.shipment_date.month))).dedup,
      db.filter
          (fun s => ymChars s.shipment_date = (pad4 p.1 ++ '-' :: pad2 p.2)) =
        db.filter
          (fun s => (s.shipment_date.year, s.shipment_date.month) = p) := by
  intro p hp
  apply List.filter_congr
  intro s hs
  apply decide_eq_decide.mpr
  constructor
  · intro he
    exact ymp_injOn db hv _ (List.mem_map_of_mem _ hs) _
      (List.mem_dedup.mp hp) he
  · intro he
    rw [← he]
    rfl

theorem monthly_rows_valid (db : List Shipment)
    (hv : ∀ s ∈ db, validYM s.shipment_date) :
    ∀ r ∈ (((db.map (fun s => ymChars s.shipment_date)).dedup).map (fun k =>
        db.filter (fun s => ymChars s.shipment_date = k))).map (fun g =>
      (minDateOf g, castInt (kgSum g))), validYM r.1 := by
  intro r hr
  rcases List.mem_map.mp hr with ⟨g, hg, rfl⟩
  rcases List.mem_map.mp hg with ⟨k, hk, rfl⟩
  rcases List.mem_map.mp (List.mem_dedup.mp hk) with ⟨s, hs, hks⟩
  have hne : db.filter (fun t => ymChars t.shipment_date = k) ≠ [] := by
    intro hnil
    have hmem : s ∈ db.filter (fun t => ymChars t.shipment_date = k) :=
      List.mem_filter.mpr ⟨hs, by simp [hks]⟩
    rw [hnil] at hmem
    exact List.not_mem_nil _ hmem
  have hmm := minDateOf_mem _ hne
  rcases List.mem_map.mp hmm with ⟨t, ht, hteq⟩
  show validYM (minDateOf (db.filter (fun t => ymChars t.shipment_date = k)))
  rw [← hteq]
  exact hv t (List.mem_filter.mp ht).1

/-- C7: for every dataset with real month numbers and four-digit years, the
monthly-volume series has exactly one entry per year-month occurring among
the shipment dates, each such entry is the `Mon YYYY` label of the group's
month together with the integer-cast sum of the group's scaled weights, and
the sequence of entry labels is the rendering of a chronologically ordered
list of year-month pairs. -/
theorem claim_C7_monthly_volume (db : List Shipment)
    (hv : ∀ s ∈ db, validYM s.shipment_date) :
    ((getCompanyStats db).monthlyVolume).length =
        ((db.map
            (fun s =>
              (s.shipment_date.year, s.shipment_date.month))).dedup).length ∧
      (∀ p ∈ (db.map
            (fun s => (s.shipment_date.year, s.shipment_date.month))).dedup,
          (⟨String.mk (monAbbrev p.2 ++ ' ' :: pad4 p.1),
            castInt (kgSum (db.filter (fun s =>
              (s.shipment_date.year, s.shipment_date.month) = p)))⟩ :
            MonthlyVolumeItem) ∈ (getCompanyStats db).monthlyVolume) ∧
      ∃ ds : List (Nat × Nat),
        ((getCompanyStats db).monthlyVolume).map MonthlyVolumeItem.month =
            ds.map (fun p => String.mk (monAbbrev p.2 ++ ' ' :: pad4 p.1)) ∧
          ds.Pairwise ymPairLe := by
  have hmv : (getCompanyStats db).monthlyVolume = monthlyVolume db := rfl
  rw [hmv]
  have hK := monthly_keys_eq db hv
  refine ⟨?_, ?_, ?_⟩
  · unfold monthlyVolume
    rw [List.length_map, (List.perm_insertionSort _ _).length_eq,
      List.length_map, List.length_map, hK, List.length_map]
  · intro p hp
    have hpK : (pad4 p.1 ++ '-' :: pad2 p.2) ∈
        (db.map (fun s => ymChars s.shipment_date)).dedup := by
      rw [hK]
      exact List.mem_map_of_mem _ hp
    have hgeq := monthly_group_eq db hv p hp
    have hne : db.filter
        (fun s => (s.shipment_date.year, s.shipment_date.month) = p) ≠ [] := by
      rcases List.mem_map.mp (List.mem_dedup.mp hp) with ⟨s, hs, rfl⟩
      intro hnil
      have hmem : s ∈ db.filter (fun t =>
          (t.shipment_date.year, t.shipment_date.month) =
            (s.shipment_date.year, s.shipment_date.month)) :=
        List.mem_filter.mpr ⟨hs, by simp⟩
      rw [hnil] at hmem
      exact List.not_mem_nil _ hmem
    have hgne : db.filter
        (fun s => ymChars s.shipment_date = (pad4 p.1 ++ '-' :: pad2 p.2)) ≠
          [] := by
      rw [hgeq]
      exact hne
    obtain hmm := minDateOf_mem _ hgne
    rcases List.mem_map.mp hmm with ⟨t, ht, hteq⟩
    have htG : t ∈ db.filter
        (fun s => (s.shipment_date.year, s.shipment_date.month) = p) := by
      rw [← hgeq]
      exact ht
    have htp : (t.shipment_date.year, t.shipment_date.month) = p := by
      simpa using (List.mem_filter.mp htG).2
    have hyear : (minDateOf (db.filter (fun s =>
        ymChars s.shipment_date = (pad4 p.1 ++ '-' :: pad2 p.2)))).year =
          p.1 := by
      rw [← hteq, ← htp]
    have hmonth : (minDateOf (db.filter (fun s =>
        ymChars s.shipment_date = (pad4 p.1 ++ '-' :: pad2 p.2)))).month =
          p.2 := by
      rw [← hteq, ← htp]
    have hlabel : monLabelChars (minDateOf (db.filter (fun s =>
        ymChars s.shipment_date = (pad4 p.1 ++ '-' :: pad2 p.2)))) =
          monAbbrev p.2 ++ ' ' :: pad4 p.1 := by
      show monAbbrev (minDateOf (db.filter (fun s =>
          ymChars s.shipment_date = (pad4 p.1 ++ '-' :: pad2 p.2)))).month ++
            ' ' :: pad4 (minDateOf (db.filter (fun s =>
              ymChars s.shipment_date =
                (pad4 p.1 ++ '-' :: pad2 p.2)))).year =
          _
      rw [hyear, hmonth]
    have h1 : db.filter
        (fun s => ymChars s.shipment_date = (pad4 p.1 ++ '-' :: pad2 p.2)) ∈
        ((db.map (fun s => ymChars s.shipment_date)).dedup).map (fun k =>
          db.filter (fun s => ymChars s.shipment_date = k)) :=
      List.mem_map_of_mem _ hpK
    have h2 := List.mem_map_of_mem
      (fun g => (minDateOf g, castInt (kgSum g))) h1
    have h3 := (List.mem_insertionSort
      (fun a b : ShipDate × Int =>
        charListLe (ymChars a.1) (ymChars b.1) = true)).mpr h2
    have h4 := List.mem_map_of_mem
      (fun r : ShipDate × Int =>
        (⟨String.mk (monLabelChars r.1), r.2⟩ : MonthlyVolumeItem)) h3
    have hfinal : (⟨String.mk (monAbbrev p.2 ++ ' ' :: pad4 p.1),
        castInt (kgSum (db.filter (fun s =>
          (s.shipment_date.year, s.shipment_date.month) = p)))⟩ :
          MonthlyVolumeItem) =
        ⟨String.mk (monLabelChars (minDateOf (db.filter (fun s =>
          ymChars s.shipment_date = (pad4 p.1 ++ '-' :: pad2 p.2))))),
          castInt (kgSum (db.filter (fun s =>
            ymChars s.shipment_date = (pad4 p.1 ++ '-' :: pad2 p.2))))⟩ := by
      rw [hlabel, hgeq]
    rw [hfinal]
    exact h4
  · refine ⟨(List.insertionSort
        (fun a b : ShipDate × Int =>
          charListLe (ymChars a.1) (ymChars b.1) = true)
        ((((db.map (fun s => ymChars s.shipment_date)).dedup).map (fun k =>
            db.filter (fun s => ymChars s.shipment_date = k))).map (fun g =>
          (minDateOf g, castInt (kgSum g))))).map
        (fun r => (r.1.year, r.1.month)), ?_, ?_⟩
    · unfold monthlyVolume
      simp only [List.map_map]
      rfl
    · rw [List.pairwise_map]
      haveI : IsTrans (ShipDate × Int)
          (fun a b => charListLe (ymChars a.1) (ymChars b.1) = true) :=
        ⟨fun _ _ _ h1 h2 => charListLe_trans _ _ _ h1 h2⟩
      haveI : IsTotal (ShipDate × Int)
          (fun a b => charListLe (ymChars a.1) (ymChars b.1) = true) :=
        ⟨fun a b => charListLe_total (ymChars a.1) (ymChars b.1)⟩
      have hsorted := List.sorted_insertionSort
        (fun a b : ShipDate × Int =>
          charListLe (ymChars a.1) (ymChars b.1) = true)
        ((((db.map (fun s => ymChars s.shipment_date)).dedup).map (fun k =>
            db.filter (fun s => ymChars s.shipment_date = k))).map (fun g =>
          (minDateOf g, castInt (kgSum g))))
      have hvalid : ∀ r ∈ List.insertionSort
          (fun a b : ShipDate × Int =>
            charListLe (ymChars a.1) (ymChars b.1) = true)
          ((((db.map (fun s => ymChars s.shipment_date)).dedup).map (fun k =>
              db.filter (fun s => ymChars s.shipment_date = k))).map (fun g =>
            (minDateOf g, castInt (kgSum g)))), validYM r.1 := by
        intro r hr
        exact monthly_rows_valid db hv r ((List.mem_insertionSort _).mp hr)
      exact List.Pairwise.imp_of_mem
        (fun ha hb hle => ymChars_le (hvalid _ ha) (hvalid _ hb) hle) hsorted

/-- Witness for C7: the example dataset has shipments in two distinct
year-months, and its monthly-volume series has exactly two entries. -/
theorem claim_C7_monthly_volume_witness :
    ((getCompanyStats exDbC1).monthlyVolume).length = 2 :=
  ((claim_C7_monthly_volume exDbC1 (by decide)).1).trans (by decide)
